import Mathlib

/-!
Verification of the ui5-cache-buster content-hashing and path-rewriting engine
(`src/index.js`).  The JavaScript source is shallowly embedded: strings are
`List Char`, byte buffers are `List Nat`, the filesystem is an explicit tree,
and the external digest primitive (`loader-utils`' `getHashDigest`, covering
the hash algorithm, the text encoding and the maximum length) is an abstract
function parameter `digest : List Nat → Str`.
-/

namespace UI5

abbrev Str := List Char

/-- The single-quote character, written by code to avoid apostrophe literals. -/
def quoteChar : Char := Char.ofNat 39

def newline : Char := Char.ofNat 10

/-- Concatenation of a list of lists (used instead of library join/flatten). -/
def concatAll : List (List α) → List α
  | [] => []
  | x :: rest => x ++ concatAll rest

/-- First-match association lookup over `List Char` keys. -/
def assocLookup (kvs : List (Str × α)) (key : Str) : Option α :=
  match kvs with
  | [] => none
  | (k, v) :: rest => if k = key then some v else assocLookup rest key

/-- `String.prototype.indexOf`-style search for `pat` inside `hay` from the
front; `some i` is the first index at which `pat` occurs. -/
def findSubIdx (hay pat : Str) : Option Nat :=
  match hay with
  | [] => if pat = [] then some 0 else none
  | _ :: rest =>
    if pat.isPrefixOf hay then some 0
    else (findSubIdx rest pat).map (· + 1)

/-- Whether `pat` occurs as a contiguous substring of `hay`. -/
def containsSub (hay pat : Str) : Bool := (findSubIdx hay pat).isSome

/-- JS `hay.indexOf(pat, start)`: clamps a negative start to 0 and returns -1
when the pattern does not occur at or after the start position. -/
def jsIndexOf (hay pat : Str) (start : Int) : Int :=
  let s0 : Nat := if start < 0 then 0 else start.toNat
  match findSubIdx (hay.drop s0) pat with
  | some i => ((s0 + i : Nat) : Int)
  | none => -1

def clampIdx (len : Nat) (i : Int) : Nat :=
  if i < 0 then 0 else min i.toNat len

/-- JS `String.prototype.substring(a, b)`: clamps both indices to the string
bounds and swaps them when given out of order. -/
def jsSubstring (s0 : Str) (a b : Int) : Str :=
  let x := clampIdx s0.length a
  let y := clampIdx s0.length b
  ((s0.drop (min x y)).take (max x y - min x y))

/-- Split on a separator character; always returns at least one (possibly
empty) piece, like JS `split`. -/
def splitOnChar (sep : Char) : Str → List Str
  | [] => [[]]
  | c :: rest =>
    if c = sep then [] :: splitOnChar sep rest
    else
      match splitOnChar sep rest with
      | [] => [[c]]
      | l :: ls => (c :: l) :: ls

def splitLines (s0 : Str) : List Str := splitOnChar newline s0

def joinLines (ls : List Str) : Str :=
  match ls with
  | [] => []
  | [l] => l
  | l :: rest => l ++ newline :: joinLines rest

/-- JS `String.prototype.toLowerCase`, restricted to its ASCII action (the
digest tokens it is applied to are ASCII base-62 strings). -/
def jsToLowerChar (c : Char) : Char :=
  if 'A' ≤ c ∧ c ≤ 'Z' then Char.ofNat (c.toNat + 32) else c

def jsToLower (s0 : Str) : Str := s0.map jsToLowerChar

/-- If `suffix` ends `s0`, replace that final occurrence by `repl` (the model
of `s.replace(new RegExp(suffix + "$"), repl)` for a metacharacter-free
`suffix`); otherwise the string is returned unchanged. -/
def replaceSuffix (s0 suffix repl : Str) : Str :=
  if suffix.isSuffixOf s0 then s0.take (s0.length - suffix.length) ++ repl else s0

/-- Replace the first occurrence of `pat` (a plain, metacharacter-free
pattern) inside `s0` by `repl`; no occurrence leaves `s0` unchanged. -/
def replaceFirstSub (s0 pat repl : Str) : Str :=
  match findSubIdx s0 pat with
  | some i => s0.take i ++ repl ++ s0.drop (i + pat.length)
  | none => s0

/-! ### UTF-8 encoding and decoding

`fs.readFileSync(p, 'utf8')` yields strings, `Buffer.from(string)` re-encodes
them, and `Buffer.prototype.toString()` (invoked by the default `Array.sort`
comparator) decodes bytes back to a JS (UTF-16) string with U+FFFD
replacement for invalid sequences, per WHATWG. -/

def utf8EncodeChar (c : Char) : List Nat :=
  let n := c.toNat
  if n < 0x80 then [n]
  else if n < 0x800 then [0xC0 + n / 64, 0x80 + n % 64]
  else if n < 0x10000 then [0xE0 + n / 4096, 0x80 + (n / 64) % 64, 0x80 + n % 64]
  else [0xF0 + n / 262144, 0x80 + (n / 4096) % 64, 0x80 + (n / 64) % 64, 0x80 + n % 64]

def utf8Encode (s0 : Str) : List Nat := concatAll (s0.map utf8EncodeChar)

/-- UTF-16 code units of a Unicode code point (surrogate pair beyond BMP). -/
def utf16OfCp (cp : Nat) : List Nat :=
  if cp < 0x10000 then [cp]
  else [0xD800 + (cp - 0x10000) / 0x400, 0xDC00 + (cp - 0x10000) % 0x400]

def isCont (b : Nat) : Bool := 0x80 ≤ b ∧ b ≤ 0xBF

/-- Fuel-driven WHATWG UTF-8 decoder producing UTF-16 code units, replacing
each maximal invalid subpart by U+FFFD; every step consumes at least one
byte, so fuel equal to the byte count suffices. -/
def utf8DecodeGo : Nat → List Nat → List Nat
  | 0, _ => []
  | _, [] => []
  | fuel + 1, b :: rest =>
    if b < 0x80 then b :: utf8DecodeGo fuel rest
    else if 0xC2 ≤ b ∧ b ≤ 0xDF then
      match rest with
      | c1 :: r1 =>
        if isCont c1 then ((b - 0xC0) * 64 + (c1 - 0x80)) :: utf8DecodeGo fuel r1
        else 0xFFFD :: utf8DecodeGo fuel rest
      | [] => [0xFFFD]
    else if 0xE0 ≤ b ∧ b ≤ 0xEF then
      match rest with
      | c1 :: r1 =>
        let lo1 : Nat := if b = 0xE0 then 0xA0 else 0x80
        let hi1 : Nat := if b = 0xED then 0x9F else 0xBF
        if lo1 ≤ c1 ∧ c1 ≤ hi1 then
          match r1 with
          | c2 :: r2 =>
            if isCont c2 then
              ((b - 0xE0) * 4096 + (c1 - 0x80) * 64 + (c2 - 0x80)) :: utf8DecodeGo fuel r2
            else 0xFFFD :: utf8DecodeGo fuel r1
          | [] => [0xFFFD]
        else 0xFFFD :: utf8DecodeGo fuel rest
      | [] => [0xFFFD]
    else if 0xF0 ≤ b ∧ b ≤ 0xF4 then
      match rest with
      | c1 :: r1 =>
        let lo1 : Nat := if b = 0xF0 then 0x90 else 0x80
        let hi1 : Nat := if b = 0xF4 then 0x8F else 0xBF
        if lo1 ≤ c1 ∧ c1 ≤ hi1 then
          match r1 with
          | c2 :: r2 =>
            if isCont c2 then
              match r2 with
              | c3 :: r3 =>
                if isCont c3 then
                  utf16OfCp ((b - 0xF0) * 262144 + (c1 - 0x80) * 4096 +
                    (c2 - 0x80) * 64 + (c3 - 0x80)) ++ utf8DecodeGo fuel r3
                else 0xFFFD :: utf8DecodeGo fuel r2
              | [] => [0xFFFD]
            else 0xFFFD :: utf8DecodeGo fuel r1
          | [] => [0xFFFD]
        else 0xFFFD :: utf8DecodeGo fuel rest
      | [] => [0xFFFD]
    else 0xFFFD :: utf8DecodeGo fuel rest

def utf8DecodeJS (bytes : List Nat) : List Nat := utf8DecodeGo bytes.length bytes

/-! ### The Content Hasher (`_createHash`, src/index.js lines 415-431)

`aBufferList.sort()` uses the default JS comparator, which stringifies each
buffer (UTF-8 decode to a UTF-16 string) and compares code-unit-wise; the
engine's sort is stable, modelled here by a stable insertion sort. -/

/-- Code-unit-wise lexicographic strict order, the JS `<` on strings. -/
def lexLt : List Nat → List Nat → Bool
  | [], [] => false
  | [], _ :: _ => true
  | _ :: _, [] => false
  | a :: xs, b :: ys => if a < b then true else if b < a then false else lexLt xs ys

/-- The sort key the default comparator derives from a buffer. -/
def bufKey (b : List Nat) : List Nat := utf8DecodeJS b

def bufLt (x y : List Nat) : Bool := lexLt (bufKey x) (bufKey y)

/-- Stable insertion: `x` goes in front of the first element not below it. -/
def insertSorted (x : List Nat) : List (List Nat) → List (List Nat)
  | [] => [x]
  | y :: ys => if bufLt y x then y :: insertSorted x ys else x :: y :: ys

/-- Stable sort of a buffer list under the default JS comparator. -/
def jsSortBuffers (l : List (List Nat)) : List (List Nat) := l.foldr insertSorted []

/-- `_createHash` (src/index.js 415-431): sort the buffers, and for a
non-empty list concatenate them, digest, and lower-case the token; an empty
list produces no token.  `digest` stands for the external
`loaderUtils.getHashDigest(·, HASH_TYPE, DIGEST_TYPE, MAX_LENGTH)`. -/
def _createHash (digest : List Nat → Str) (aBufferList : List (List Nat)) : Option Str :=
  let aSortedBufferList := jsSortBuffers aBufferList
  if aSortedBufferList.length > 0 then
    some (jsToLower (digest (concatAll aSortedBufferList)))
  else none

/-- The `|| null` applied to every strategy result in `ui5Bust`: a JS falsy
empty-string token is coerced to null. -/
def orNull : Option Str → Option Str
  | some [] => none
  | h => h

/-- The order relation the sorted buffer list satisfies: `y` is not strictly
below `x` under the default JS comparator. -/
def leRel (x y : List Nat) : Prop := bufLt y x = false

/-- An injective digest fixture distinguishing the two concatenation orders of
the buffers `FF` and `FE` (whose UTF-8 decodings coincide). -/
def digestC3 : List Nat → Str := fun bytes => if bytes = [255, 254] then ['x'] else ['y']

/-- A trivial digest fixture for witnesses. -/
def digestW : List Nat → Str := fun _ => ['A', 'B']

/-! ### JSON values, `JSON.parse`, `JSON.stringify`, and JS object semantics -/

/-- Abstract error kinds of a run, mirroring the spec's taxonomy: a
`JSON.parse` SyntaxError on a declaration or manifest is
`malformedDeclaration`; a JS TypeError (member access on undefined/null,
`.map` on a non-array, a non-string path) is `typeError`; a failing
filesystem call is `fsError`. -/
inductive BustError where
  | malformedDeclaration
  | typeError
  | fsError
deriving DecidableEq

/-- JSON values; numbers keep their raw lexeme (no claim computes with
them). Object member lists are in insertion order, deduplicated by the
parser as `JSON.parse` does (first position, last value wins). -/
inductive Json where
  | null
  | bool (b : Bool)
  | num (raw : Str)
  | strv (s0 : Str)
  | arr (xs : List Json)
  | obj (kvs : List (Str × Json))

def lbrace : Char := Char.ofNat 123

def rbrace : Char := Char.ofNat 125

def isWsChar (c : Char) : Bool :=
  c = ' ' ∨ c = Char.ofNat 9 ∨ c = newline ∨ c = Char.ofNat 13

def skipWs : Str → Str
  | [] => []
  | c :: rest => if isWsChar c then skipWs rest else c :: rest

def isDigit (c : Char) : Bool := '0' ≤ c ∧ c ≤ '9'

def hexVal (c : Char) : Option Nat :=
  if '0' ≤ c ∧ c ≤ '9' then some (c.toNat - 48)
  else if 'a' ≤ c ∧ c ≤ 'f' then some (c.toNat - 87)
  else if 'A' ≤ c ∧ c ≤ 'F' then some (c.toNat - 55)
  else none

/-- Body of a JSON string literal (after the opening quote): handles the JSON
escapes including `\uXXXX` with surrogate pairs; lone surrogates are not
representable as scalar values and are rejected. -/
def parseStrBody : Nat → Str → Option (Str × Str)
  | 0, _ => none
  | _, [] => none
  | fuel + 1, c :: rest =>
    if c = '"' then some ([], rest)
    else if c = '\\' then
      match rest with
      | [] => none
      | e :: r2 =>
        if e = '"' ∨ e = '\\' ∨ e = '/' then
          (parseStrBody fuel r2).map (fun p => (e :: p.1, p.2))
        else if e = 'b' then (parseStrBody fuel r2).map (fun p => (Char.ofNat 8 :: p.1, p.2))
        else if e = 'f' then (parseStrBody fuel r2).map (fun p => (Char.ofNat 12 :: p.1, p.2))
        else if e = 'n' then (parseStrBody fuel r2).map (fun p => (newline :: p.1, p.2))
        else if e = 'r' then (parseStrBody fuel r2).map (fun p => (Char.ofNat 13 :: p.1, p.2))
        else if e = 't' then (parseStrBody fuel r2).map (fun p => (Char.ofNat 9 :: p.1, p.2))
        else if e = 'u' then
          match r2 with
          | h1 :: h2 :: h3 :: h4 :: r3 =>
            match hexVal h1, hexVal h2, hexVal h3, hexVal h4 with
            | some a, some b2, some c2, some d =>
              let n := a * 4096 + b2 * 256 + c2 * 16 + d
              if 0xD800 ≤ n ∧ n ≤ 0xDBFF then
                match r3 with
                | b1 :: u1 :: h5 :: h6 :: h7 :: h8 :: r4 =>
                  if b1 = '\\' ∧ u1 = 'u' then
                    match hexVal h5, hexVal h6, hexVal h7, hexVal h8 with
                    | some a2, some b3, some c3, some d2 =>
                      let m := a2 * 4096 + b3 * 256 + c3 * 16 + d2
                      if 0xDC00 ≤ m ∧ m ≤ 0xDFFF then
                        (parseStrBody fuel r4).map (fun p =>
                          (Char.ofNat (0x10000 + (n - 0xD800) * 0x400 + (m - 0xDC00)) :: p.1,
                            p.2))
                      else none
                    | _, _, _, _ => none
                  else none
                | _ => none
              else if 0xDC00 ≤ n ∧ n ≤ 0xDFFF then none
              else (parseStrBody fuel r3).map (fun p => (Char.ofNat n :: p.1, p.2))
            | _, _, _, _ => none
          | _ => none
        else none
    else if c.toNat < 32 then none
    else (parseStrBody fuel rest).map (fun p => (c :: p.1, p.2))

def takeDigits : Str → Str × Str
  | [] => ([], [])
  | c :: rest =>
    if isDigit c then
      match takeDigits rest with
      | (d, r) => (c :: d, r)
    else ([], c :: rest)

/-- Lex a JSON number starting at the head of `s0`, returning its raw lexeme
and the rest; a malformed prefix that can never extend to a number yields
`none`. -/
def parseNumber (s0 : Str) : Option (Str × Str) :=
  let sign : Str × Str :=
    match s0 with
    | c :: rest => if c = '-' then ([c], rest) else ([], s0)
    | [] => ([], [])
  match takeDigits sign.2 with
  | (ip, r1) =>
    if ip = [] then none
    else if 1 < ip.length ∧ ip.headD '0' = '0' then none
    else
      let frac : Str × Str :=
        match r1 with
        | d :: rest2 =>
          if d = '.' then
            match takeDigits rest2 with
            | (ds, r3) => if ds = [] then ([], r1) else (d :: ds, r3)
          else ([], r1)
        | [] => ([], [])
      let expp : Str × Str :=
        match frac.2 with
        | e :: rest3 =>
          if e = 'e' ∨ e = 'E' then
            let sg : Str × Str :=
              match rest3 with
              | c2 :: rr => if c2 = '+' ∨ c2 = '-' then ([c2], rr) else ([], rest3)
              | [] => ([], [])
            match takeDigits sg.2 with
            | (ds, r4) => if ds = [] then ([], frac.2) else (e :: (sg.1 ++ ds), r4)
          else ([], frac.2)
        | [] => ([], [])
      some (sign.1 ++ ip ++ frac.1 ++ expp.1, expp.2)

/-- `JSON.parse` duplicate-key handling: the first occurrence keeps its
position, the last assignment wins. -/
def objInsert (kvs : List (Str × Json)) (key : Str) (v : Json) : List (Str × Json) :=
  match kvs with
  | [] => [(key, v)]
  | (k, w) :: rest => if k = key then (k, v) :: rest else (k, w) :: objInsert rest key v

mutual

/-- Recursive-descent JSON value parser (fuel-driven; `jsonParse` supplies
ample fuel). -/
def parseVal : Nat → Str → Option (Json × Str)
  | 0, _ => none
  | fuel + 1, s0 =>
    match skipWs s0 with
    | [] => none
    | c :: rest =>
      if c = '"' then
        match parseStrBody (rest.length + 1) rest with
        | some (s1, r1) => some (.strv s1, r1)
        | none => none
      else if c = lbrace then
        match skipWs rest with
        | c2 :: r2 =>
          if c2 = rbrace then some (.obj [], r2)
          else parseMembers fuel (c2 :: r2) []
        | [] => none
      else if c = '[' then
        match skipWs rest with
        | c2 :: r2 =>
          if c2 = ']' then some (.arr [], r2)
          else parseItems fuel (c2 :: r2) []
        | [] => none
      else if "true".data.isPrefixOf (c :: rest) then some (.bool true, rest.drop 3)
      else if "false".data.isPrefixOf (c :: rest) then some (.bool false, rest.drop 4)
      else if "null".data.isPrefixOf (c :: rest) then some (.null, rest.drop 3)
      else if c = '-' ∨ isDigit c then
        match parseNumber (c :: rest) with
        | some (raw, r1) => some (.num raw, r1)
        | none => none
      else none

/-- Members of a JSON object, positioned at the first character of a key. -/
def parseMembers : Nat → Str → List (Str × Json) → Option (Json × Str)
  | 0, _, _ => none
  | fuel + 1, s0, acc =>
    match s0 with
    | c :: rest =>
      if c = '"' then
        match parseStrBody (rest.length + 1) rest with
        | some (key, r1) =>
          match skipWs r1 with
          | c2 :: r2 =>
            if c2 = ':' then
              match parseVal fuel r2 with
              | some (v, r3) =>
                match skipWs r3 with
                | c3 :: r4 =>
                  if c3 = ',' then parseMembers fuel (skipWs r4) (objInsert acc key v)
                  else if c3 = rbrace then some (.obj (objInsert acc key v), r4)
                  else none
                | [] => none
              | none => none
            else none
          | [] => none
        | none => none
      else none
    | [] => none

/-- Items of a JSON array, positioned at the first character of a value. -/
def parseItems : Nat → Str → List Json → Option (Json × Str)
  | 0, _, _ => none
  | fuel + 1, s0, acc =>
    match parseVal fuel s0 with
    | some (v, r1) =>
      match skipWs r1 with
      | c :: r2 =>
        if c = ',' then parseItems fuel r2 (acc ++ [v])
        else if c = ']' then some (.arr (acc ++ [v]), r2)
        else none
      | [] => none
    | none => none

end

/-- `JSON.parse`: parse one value and require only whitespace after it. -/
def jsonParse (s0 : Str) : Option Json :=
  match parseVal (2 * s0.length + 4) s0 with
  | some (v, rest) => if skipWs rest = [] then some v else none
  | none => none

def hexDigitChar (n : Nat) : Char :=
  if n < 10 then Char.ofNat (48 + n) else Char.ofNat (87 + n)

def jsonEscapeChar (c : Char) : Str :=
  if c = '"' then ['\\', '"']
  else if c = '\\' then ['\\', '\\']
  else if c = newline then ['\\', 'n']
  else if c = Char.ofNat 13 then ['\\', 'r']
  else if c = Char.ofNat 9 then ['\\', 't']
  else if c = Char.ofNat 8 then ['\\', 'b']
  else if c = Char.ofNat 12 then ['\\', 'f']
  else if c.toNat < 32 then
    ['\\', 'u', '0', '0', hexDigitChar (c.toNat / 16), hexDigitChar (c.toNat % 16)]
  else [c]

def jsonEscape (s0 : Str) : Str := concatAll (s0.map jsonEscapeChar)

def quoteStr (s0 : Str) : Str := '"' :: (jsonEscape s0 ++ ['"'])

def joinCommas : List Str → Str
  | [] => []
  | [x] => x
  | x :: rest => x ++ ',' :: joinCommas rest

/-- `JSON.stringify` of a string-to-string object (the shape both rewriters
produce), emitted without spacing, keys in insertion order. -/
def stringifyStrMap (m : List (Str × Str)) : Str :=
  lbrace :: (joinCommas (m.map fun kv => quoteStr kv.1 ++ ':' :: quoteStr kv.2) ++ [rbrace])

def natKey (n : Nat) : Str := Nat.toDigits 10 n

def findIndexKey (len : Nat) (key : Str) : Option Nat :=
  (List.range len).find? (fun n => natKey n = key)

/-- JS property read on a (non-null, defined) value: objects by key, strings
and arrays by numeric index keys (the keys `Object.keys` yields for them);
anything else — and any other property — reads as undefined (`none`). -/
def jsGetKey : Json → Str → Option Json
  | .obj kvs, key => assocLookup kvs key
  | .strv s0, key => (findIndexKey s0.length key).map (fun n => .strv ((s0.drop n).take 1))
  | .arr xs, key => (findIndexKey xs.length key).bind (fun n => xs.get? n)
  | _, _ => none

/-- JS member access `recv[key]`: throws a TypeError when the receiver is
undefined or null, otherwise reads the property (possibly undefined). -/
def jsMember (recv : Option Json) (key : Str) : Except BustError (Option Json) :=
  match recv with
  | none => .error .typeError
  | some .null => .error .typeError
  | some j => .ok (jsGetKey j key)

/-- `Object.keys`, as applied by the source to a parsed JSON value: object
keys in insertion order; index keys for strings and arrays; `[]` for other
primitives; a TypeError on null (and undefined never reaches it). -/
def jsObjectKeysE : Json → Except BustError (List Str)
  | .obj kvs => .ok (kvs.map (·.1))
  | .strv s0 => .ok ((List.range s0.length).map natKey)
  | .arr xs => .ok ((List.range xs.length).map natKey)
  | .null => .error .typeError
  | _ => .ok []

/-- Whether the significand of a raw JSON number lexeme is zero. -/
def numIsZero (raw : Str) : Bool :=
  ((raw.takeWhile (fun c => c ≠ 'e' ∧ c ≠ 'E')).filter isDigit).all (· = '0')

/-- JS truthiness of a possibly-undefined value. -/
def jsTruthy : Option Json → Bool
  | none => false
  | some .null => false
  | some (.bool b) => b
  | some (.strv s0) => decide (s0 ≠ [])
  | some (.num raw) => ! numIsZero raw
  | some (.arr _) => true
  | some (.obj _) => true

/-! ### Filesystem model

Directory entries are kept in enumeration order (`fs.readdirSync` order);
file contents are the UTF-8 strings `readFileSync(p, 'utf8')` yields.
`FSEntries` is an inlined association list of names to nodes (a mutual
inductive rather than a nested `List`, so that tree recursion is
structural). -/

mutual

inductive FSNode where
  | file (content : Str)
  | dir (entries : FSEntries)

inductive FSEntries where
  | nil
  | cons (name : Str) (node : FSNode) (rest : FSEntries)

end

/-- Build directory entries from an association list (fixture notation). -/
def entsOf : List (Str × FSNode) → FSEntries
  | [] => .nil
  | (name, n) :: rest => .cons name n (entsOf rest)

abbrev FsPath := List Str

def entLookup : FSEntries → Str → Option FSNode
  | .nil, _ => none
  | .cons k v rest, key => if k = key then some v else entLookup rest key

def fsLookup : FSNode → FsPath → Option FSNode
  | n, [] => some n
  | .dir es, seg :: rest =>
    match entLookup es seg with
    | some child => fsLookup child rest
    | none => none
  | .file _, _ :: _ => none

def fsExists (fs : FSNode) (p : FsPath) : Bool := (fsLookup fs p).isSome

def entUpdate : FSEntries → Str → FSNode → FSEntries
  | .nil, key, v => .cons key v .nil
  | .cons k w rest, key, v =>
    if k = key then .cons k v rest else .cons k w (entUpdate rest key v)

def entRemove : FSEntries → Str → FSEntries
  | .nil, _ => .nil
  | .cons k w rest, key => if k = key then rest else .cons k w (entRemove rest key)

def fsInsert : FSNode → FsPath → FSNode → Option FSNode
  | _, [], v => some v
  | .dir es, [seg], v => some (.dir (entUpdate es seg v))
  | .dir es, seg :: seg2 :: rest, v =>
    match entLookup es seg with
    | some child => (fsInsert child (seg2 :: rest) v).map (fun c => .dir (entUpdate es seg c))
    | none => none
  | .file _, _ :: _, _ => none

def fsRemove : FSNode → FsPath → Option FSNode
  | n, [] => some n
  | .dir es, [seg] => some (.dir (entRemove es seg))
  | .dir es, seg :: seg2 :: rest =>
    match entLookup es seg with
    | some child => (fsRemove child (seg2 :: rest)).map (fun c => .dir (entUpdate es seg c))
    | none => none
  | .file _, _ :: _ => none

/-- `fs.renameSync`: the source must exist and the destination's parent
directory must exist; renaming a path to itself is a no-op.  (POSIX details
such as a non-empty existing destination are not exercised here.) -/
def fsRename (fs : FSNode) (src dst : FsPath) : Option FSNode :=
  match fsLookup fs src with
  | none => none
  | some node =>
    match fsRemove fs src with
    | none => none
    | some fs1 => fsInsert fs1 dst node

/-- `path.resolve(cwd, path.dirname(htmlPath), rel)` with the first two
arguments pre-resolved into the segment list `base`: forward-slash splitting
with `.`/empty segments skipped and `..` popping. -/
def resolveSegs (base : FsPath) (rel : Str) : FsPath :=
  (splitOnChar '/' rel).foldl
    (fun acc seg =>
      if seg = [] ∨ seg = ['.'] then acc
      else if seg = ['.', '.'] then acc.dropLast
      else acc ++ [seg])
    base

/-! ### `_readAllFiles` (src/index.js 383-403) and the hash strategies -/

/-- The recursive body of `_readAllFiles`: each directory entry in
enumeration order contributes either its recursive contents — note that the
source recurses with the *default empty* whitelist — or, for a file, its
content when the whitelist is empty or lists its base name. -/
def readAllEntries (w : List Str) : FSEntries → List Str
  | .nil => []
  | .cons name (.file c) rest =>
    (if w.length = 0 ∨ name ∈ w then [c] else []) ++ readAllEntries w rest
  | .cons _ (.dir es) rest => readAllEntries [] es ++ readAllEntries w rest

/-- `_readAllFiles(sDir, aWhitelist)`: `readdirSync` fails unless the path
names an existing directory. -/
def _readAllFiles (fs : FSNode) (p : FsPath) (w : List Str) : Except BustError (List Str) :=
  match fsLookup fs p with
  | some (.dir es) => .ok (readAllEntries w es)
  | _ => .error .fsError

def preloadName : Str := "Component-preload.js".data

def libPreloadName : Str := "library-preload.js".data

def manifestName : Str := "manifest.json".data

def sapUi5Key : Str := "sap.ui5".data

def resourcesKey : Str := "resources".data

def uriKey : Str := "uri".data

def ui5Seg : Str := "UI5".data

/-- One manifest resource entry: read `oResource.uri` (TypeError on a null or
undefined entry or a non-string uri, exactly as `path.resolve` and member
access throw) and the referenced file's content. -/
def readResourceItem (fs : FSNode) (modPath : FsPath) (item : Json) : Except BustError Str :=
  match jsMember (some item) uriKey with
  | .error e => .error e
  | .ok uriVal =>
    match uriVal with
    | some (.strv u) =>
      match fsLookup fs (resolveSegs modPath u) with
      | some (.file c) => Except.ok c
      | _ => Except.error BustError.fsError
    | _ => Except.error BustError.typeError

/-- The element-wise effect of `…resources[sResourceKey].map(oResource => …)`
with left-to-right failure, as JS evaluates it. -/
def mapExceptStr (f : Json → Except BustError Str) : List Json → Except BustError (List Str)
  | [] => .ok []
  | x :: rest =>
    match f x with
    | .ok c =>
      match mapExceptStr f rest with
      | .ok cs => .ok (c :: cs)
      | .error e => .error e
    | .error e => .error e

/-- The `aResourceKeys.reduce` of src/index.js 287-299: accumulate, for each
resource category key, the contents of all files its `{uri}` entries name; a
non-array (or absent) category value is a TypeError, as `.map` on it throws. -/
def reduceResourceKeys (fs : FSNode) (modPath : FsPath) (resources : Json) :
    List Str → List Str → Except BustError (List Str)
  | [], acc => .ok acc
  | key :: rest, acc =>
    match jsGetKey resources key with
    | some (.arr items) =>
      match mapExceptStr (readResourceItem fs modPath) items with
      | .ok contents => reduceResourceKeys fs modPath resources rest (acc ++ contents)
      | .error e => .error e
    | _ => .error .typeError

/-- The part of `_getUi5AppHash` below the manifest read (src/index.js
284-307), for a given preload content and (parsed or defaulted) manifest
value: navigate `['sap.ui5'].resources` with JS member semantics, collect
the referenced contents, and hash them together with the preload content
when the latter is truthy (non-empty). -/
def appHashCore (fs : FSNode) (modPath : FsPath) (digest : List Nat → Str)
    (oPreloadFileContent : Str) (oManifestJSON : Json) : Except BustError (Option Str) :=
  match jsMember (some oManifestJSON) sapUi5Key with
  | .error e => .error e
  | .ok sapUi5 =>
    match jsMember sapUi5 resourcesKey with
    | .error e => .error e
    | .ok resources =>
      let keysRes : Except BustError (List Str) :=
        if jsTruthy resources then
          match resources with
          | some r => jsObjectKeysE r
          | none => .ok []
        else .ok []
      match keysRes with
      | .error e => .error e
      | .ok aResourceKeys =>
        match reduceResourceKeys fs modPath (resources.getD .null) aResourceKeys [] with
        | .error e => .error e
        | .ok aDepended =>
          .ok (_createHash digest
            ((aDepended ++
              (if oPreloadFileContent ≠ [] then [oPreloadFileContent] else [])).map
              utf8Encode))

/-- `_getUi5AppHash` (src/index.js 271-308): the preload file is read
unconditionally (its absence is a filesystem error); the manifest is
optional and defaults to an object holding an empty `sap.ui5` object. -/
def _getUi5AppHash (fs : FSNode) (modPath : FsPath) (digest : List Nat → Str) :
    Except BustError (Option Str) :=
  match fsLookup fs (modPath ++ [preloadName]) with
  | some (.file oPreloadFileContent) =>
    match fsLookup fs (modPath ++ [manifestName]) with
    | some (.file c) =>
      match jsonParse c with
      | some j => appHashCore fs modPath digest oPreloadFileContent j
      | none => .error .malformedDeclaration
    | some (.dir _) => .error .fsError
    | none =>
      appHashCore fs modPath digest oPreloadFileContent (Json.obj [(sapUi5Key, Json.obj [])])
  | _ => .error .fsError

/-- `_getUi5LibHash` (src/index.js 321-332): the library preload file alone. -/
def _getUi5LibHash (fs : FSNode) (libPreloadPath : FsPath) (digest : List Nat → Str) :
    Except BustError (Option Str) :=
  match fsLookup fs libPreloadPath with
  | some (.file c) => .ok (_createHash digest [utf8Encode c])
  | _ => .error .fsError

/-- `_getAssetsHash` (src/index.js 344-353): the full recursive file tree. -/
def _getAssetsHash (fs : FSNode) (modPath : FsPath) (digest : List Nat → Str) :
    Except BustError (Option Str) :=
  (_readAllFiles fs modPath []).map (fun contents => _createHash digest (contents.map utf8Encode))

/-- `_getThemeRootHash` (src/index.js 366-375): the full recursive file tree
of the theme root. -/
def _getThemeRootHash (fs : FSNode) (themePath : FsPath) (digest : List Nat → Str) :
    Except BustError (Option Str) :=
  (_readAllFiles fs themePath []).map (fun contents => _createHash digest (contents.map utf8Encode))

/-! ### The Module Classifier (src/index.js 73-114) -/

inductive ModuleKind where
  | application
  | library
  | assetBundle
deriving DecidableEq

/-- Classification by marker files: the component-preload marker wins, the
library-preload marker is second, everything else is an asset bundle. -/
def classifyModule (fs : FSNode) (resolved : FsPath) : ModuleKind :=
  if fsExists fs (resolved ++ [preloadName]) then .application
  else if fsExists fs (resolved ++ [libPreloadName]) then .library
  else .assetBundle

/-! ### The Resource-Root Rewriter (src/index.js 63-144) -/

def lastSegmentOf (s0 : Str) : Str := (splitOnChar '/' s0).getLastD []

/-- JS string coercion of the hash used inside the concatenations: a null
hash prints as the four characters `null`. -/
def hashToStr : Option Str → Str
  | some h => h
  | none => "null".data

/-- `resolvedString.replace(new RegExp(dirName + "$"), repl)` for a
metacharacter-free `dirName`: the `$`-anchored pattern can only match a
suffix of the final segment. -/
def replaceLastSegSuffix (resolved : FsPath) (dirName repl : Str) : FsPath :=
  match resolved.getLast? with
  | some lastSeg =>
    if dirName.isSuffixOf lastSeg then
      resolved.dropLast ++ [lastSeg.take (lastSeg.length - dirName.length) ++ repl]
    else resolved
  | none => resolved

/-- The per-module body of the resource-root reduce (src/index.js 64-141):
classify, hash by strategy, compose the new declaration path and the rename
target, rename, and return the declaration value with the filesystem. -/
def processResourceRoot (fs : FSNode) (base : FsPath) (digest : List Nat → Str)
    (sModulePath : Str) : Except (BustError × FSNode) (Str × FSNode) := do
  let sResolvedModulePath := resolveSegs base sModulePath
  let isUi5App := fsExists fs (sResolvedModulePath ++ [preloadName])
  let isUi5Lib := fsExists fs (sResolvedModulePath ++ [libPreloadName])
  let hashRes : Except BustError (Option Str) :=
    if isUi5App then (_getUi5AppHash fs sResolvedModulePath digest).map orNull
    else if isUi5Lib then
      (_getUi5LibHash fs (sResolvedModulePath ++ [libPreloadName]) digest).map orNull
    else (_getAssetsHash fs sResolvedModulePath digest).map orNull
  let sNewHash ← hashRes.mapError (fun e => (e, fs))
  let sOriginDirectory := lastSegmentOf sModulePath
  let sNewHashedModulePath :=
    match sNewHash with
    | some h =>
      replaceLastSegSuffix sResolvedModulePath sOriginDirectory
        (sOriginDirectory ++ '-' :: h)
    | none => sResolvedModulePath
  let sNewHashedPath :=
    replaceSuffix sModulePath sOriginDirectory
      (sOriginDirectory ++ '-' :: hashToStr sNewHash)
  match fsRename fs sResolvedModulePath sNewHashedModulePath with
  | some fs1 => Except.ok (sNewHashedPath, fs1)
  | none => Except.error (BustError.fsError, fs)

/-! ### The Theme-Root Rewriter (src/index.js 171-224) -/

def stripUI5Suffix (s0 : Str) : Str :=
  if "/UI5".data.isSuffixOf s0 then s0.take (s0.length - 4) else s0

/-- First index `i` with `segs[i] = x` and `segs[i+1] = y` (the segment-level
reading of the unanchored `dirName/UI5` pattern on the resolved path). -/
def findAdjPair : FsPath → Str → Str → Option Nat
  | [], _, _ => none
  | a :: rest, x, y =>
    match rest with
    | [] => none
    | b :: _ =>
      if a = x ∧ b = y then some 0
      else (findAdjPair rest x y).map (· + 1)

/-- The per-theme body of the theme-root reduce (src/index.js 171-224): check
existence, hash the tree, splice the hash before the trailing `UI5` segment
in both the declaration path and the rename target, and rename the directory
above `UI5`. -/
def processThemeRoot (fs : FSNode) (base : FsPath) (digest : List Nat → Str)
    (sThemeRootPath : Str) : Except (BustError × FSNode) (Str × FSNode) := do
  let sResolvedThemeRootPath := resolveSegs base sThemeRootPath
  let isValidThemeRoot := fsExists fs sResolvedThemeRootPath
  let hashRes : Except BustError (Option Str) :=
    if isValidThemeRoot then (_getThemeRootHash fs sResolvedThemeRootPath digest).map orNull
    else Except.ok none
  let sNewHash ← hashRes.mapError (fun e => (e, fs))
  let sOriginDirectory := lastSegmentOf (stripUI5Suffix sThemeRootPath)
  let hs := hashToStr sNewHash
  let sNewHashedThemeRootPath :=
    match findAdjPair sResolvedThemeRootPath sOriginDirectory ui5Seg with
    | some i =>
      sResolvedThemeRootPath.take i ++ [sOriginDirectory ++ '-' :: hs] ++
        sResolvedThemeRootPath.drop (i + 2)
    | none => sResolvedThemeRootPath
  let sNewHashedPath :=
    replaceFirstSub sThemeRootPath (sOriginDirectory ++ "/UI5".data)
      (sOriginDirectory ++ '-' :: (hs ++ "/UI5".data))
  let sPathBefore :=
    if sResolvedThemeRootPath.getLastD [] = ui5Seg then sResolvedThemeRootPath.dropLast
    else sResolvedThemeRootPath
  match fsRename fs sPathBefore sNewHashedThemeRootPath with
  | some fs1 => Except.ok (sNewHashedPath, fs1)
  | none => Except.error (BustError.fsError, fs)

/-! ### The Bootstrap Document Patcher and `ui5Bust` (src/index.js 36-258) -/

/-- The body of the reduce over one declaration map's names: member read per
name (a TypeError for a non-string path value, as `path.resolve` throws),
threading the filesystem through each processed root. -/
def bustRootsGo (procOne : FSNode → Str → Except (BustError × FSNode) (Str × FSNode))
    (roots : Json) : List Str → List (Str × Str) → FSNode →
    Except (BustError × FSNode) (List (Str × Str) × FSNode)
  | [], acc, fs => .ok (acc, fs)
  | name :: rest, acc, fs =>
    match jsGetKey roots name with
    | some (.strv p) =>
      match procOne fs p with
      | .ok (newPath, fs1) => bustRootsGo procOne roots rest (acc ++ [(name, newPath)]) fs1
      | .error e => .error e
    | _ => .error (BustError.typeError, fs)

/-- The reduce over one declaration map: `Object.keys` in insertion order
(a TypeError on a null map), then the per-name body. -/
def bustRoots (procOne : FSNode → Str → Except (BustError × FSNode) (Str × FSNode))
    (fs : FSNode) (roots : Json) :
    Except (BustError × FSNode) (List (Str × Str) × FSNode) :=
  match jsObjectKeysE roots with
  | .error e => .error (e, fs)
  | .ok names => bustRootsGo procOne roots names [] fs

def bustResourceRoots (fs : FSNode) (base : FsPath) (digest : List Nat → Str)
    (roots : Json) : Except (BustError × FSNode) (List (Str × Str) × FSNode) :=
  bustRoots (fun f p => processResourceRoot f base digest p) fs roots

def bustThemeRoots (fs : FSNode) (base : FsPath) (digest : List Nat → Str)
    (roots : Json) : Except (BustError × FSNode) (List (Str × Str) × FSNode) :=
  bustRoots (fun f p => processThemeRoot f base digest p) fs roots

def resourceRootMarker : Str := "data-sap-ui-resourceroots=".data

def themeRootMarker : Str := "data-sap-ui-theme-roots=".data

/-- Declaration extraction (src/index.js 54-58 and 159-166): `indexOf` the
marker (-1 when absent), skip one quote character, and take the substring up
to the next single quote — with JS's clamping/swapping `substring`. -/
def extractDecl (content marker : Str) : Str :=
  let startI : Int := jsIndexOf content marker 0 + (marker.length : Int) + 1
  let endI : Int := jsIndexOf content [quoteChar] startI
  jsSubstring content startI endI

def lastIdxOfChar (s0 : Str) (c : Char) : Option Nat :=
  match s0 with
  | [] => none
  | a :: rest =>
    match lastIdxOfChar rest c with
    | some i => some (i + 1)
    | none => if a = c then some 0 else none

/-- One line of the global regex replace
`doc.replace(/marker='(.*)'/g, "marker='" ++ json ++ "'")`: `.` does not
cross line terminators, so a match lives inside one line, starts at the
first occurrence of the marker followed by a quote, and — `(.*)` being
greedy — extends to the last single quote on the line; after it no quote
remains, so at most one replacement happens per line.  (Dollar escapes in
the replacement string are not modelled; no input here contains them.) -/
def lineReplace (marker json line : Str) : Str :=
  match findSubIdx line (marker ++ [quoteChar]) with
  | none => line
  | some i =>
    match lastIdxOfChar line quoteChar with
    | some j =>
      if i + marker.length + 1 ≤ j then
        line.take i ++ marker ++ quoteChar :: (json ++ quoteChar :: line.drop (j + 1))
      else line
    | none => line

def jsGlobalReplace (doc marker json : Str) : Str :=
  joinLines ((splitLines doc).map (lineReplace marker json))

/-- `ui5Bust` (src/index.js 36-258): extract and parse the resource-root
declaration, rewrite all resource roots (renaming directories), then extract
and parse the theme-root declaration, rewrite all theme roots, and finally
substitute both re-serialized maps back into the document.  Errors carry the
filesystem state at the moment the run aborts. -/
def ui5Bust (doc : Str) (fs : FSNode) (base : FsPath) (digest : List Nat → Str) :
    Except (BustError × FSNode) (Str × FSNode) :=
  match jsonParse (extractDecl doc resourceRootMarker) with
  | none => .error (.malformedDeclaration, fs)
  | some oResouceRoots =>
    match bustResourceRoots fs base digest oResouceRoots with
    | .error e => .error e
    | .ok (oNewResouceRoots, fs1) =>
      match jsonParse (extractDecl doc themeRootMarker) with
      | none => .error (.malformedDeclaration, fs1)
      | some oThemeRoots =>
        match bustThemeRoots fs1 base digest oThemeRoots with
        | .error e => .error e
        | .ok (oNewThemeRoots, fs2) =>
          .ok (jsGlobalReplace
                (jsGlobalReplace doc resourceRootMarker (stringifyStrMap oNewResouceRoots))
                themeRootMarker (stringifyStrMap oNewThemeRoots), fs2)

/-! ### Spec-side definitions

These follow the wording of the (amended) claims and are compared with the
definitions embedded from the source. -/

/-- All file contents of a directory-entry list, at every depth, in
enumeration order and with no filtering (spec-side helper for C6). -/
def collectAllFiles : FSEntries → List Str
  | .nil => []
  | .cons _ (.file c) rest => c :: collectAllFiles rest
  | .cons _ (.dir es) rest => collectAllFiles es ++ collectAllFiles rest

/-- The amended C6 reading of the File-Tree Reader with a non-empty
allow-list: only the files of the root directory itself are filtered by
base name; every subdirectory's tree is included wholesale; directories are
never filtered. -/
def topFilteredFiles (w : List Str) : FSEntries → List Str
  | .nil => []
  | .cons name (.file c) rest => (if name ∈ w then [c] else []) ++ topFilteredFiles w rest
  | .cons _ (.dir es) rest => collectAllFiles es ++ topFilteredFiles w rest

/-- Spec-side: the content a well-formed manifest resource entry `{uri}`
refers to (resolved against the module directory), when readable. -/
def specItemContent (fs : FSNode) (modPath : FsPath) : Json → Option Str
  | .obj kvs =>
    match assocLookup kvs uriKey with
    | some (.strv u) =>
      match fsLookup fs (resolveSegs modPath u) with
      | some (.file c) => some c
      | _ => none
    | _ => none
  | _ => none

def mapOptionStr (f : Json → Option Str) : List Json → Option (List Str)
  | [] => some []
  | x :: rest =>
    match f x with
    | some c =>
      match mapOptionStr f rest with
      | some cs => some (c :: cs)
      | none => none
    | none => none

def mapOptionList (f : Str × Json → Option (List Str)) :
    List (Str × Json) → Option (List (List Str))
  | [] => some []
  | x :: rest =>
    match f x with
    | some c =>
      match mapOptionList f rest with
      | some cs => some (c :: cs)
      | none => none
    | none => none

/-- Spec-side: the contents of one resource category, an ordered sequence of
`{uri}` entries. -/
def specCatContents (fs : FSNode) (modPath : FsPath) : Json → Option (List Str)
  | .arr items => mapOptionStr (specItemContent fs modPath) items
  | _ => none

/-- Spec-side: the contents of all files referenced by uri entries under the
manifest's resource categories, in manifest order (categories are required
to carry distinct names, as a JSON-parsed object does). -/
def specResourceContents (fs : FSNode) (modPath : FsPath) : Json → Option (List Str)
  | .obj cats =>
    if (cats.map Prod.fst).Nodup then
      (mapOptionList (fun cat => specCatContents fs modPath cat.2) cats).map concatAll
    else none
  | _ => none

/-- Spec-side (amended C7): the hash-input buffer collection of an
application module — all manifest-referenced file contents followed by the
Component-preload content when the latter is non-empty; undefined (`none`)
outside the well-formed cases the claim speaks about. -/
def specAppHashInput (fs : FSNode) (modPath : FsPath) : Option (List (List Nat)) :=
  match fsLookup fs (modPath ++ [preloadName]) with
  | some (.file b) =>
    let extras : Option (List Str) :=
      match fsLookup fs (modPath ++ [manifestName]) with
      | none => some []
      | some (.file c) =>
        match jsonParse c with
        | some (.obj mkvs) =>
          match assocLookup mkvs sapUi5Key with
          | some (.obj s5kvs) =>
            match assocLookup s5kvs resourcesKey with
            | none => some []
            | some r => specResourceContents fs modPath r
          | _ => none
        | _ => none
      | some (.dir _) => none
    extras.map (fun ex => (ex ++ (if b ≠ [] then [b] else [])).map utf8Encode)
  | _ => none

/-! ### Concrete fixtures used by counterexamples and witnesses -/

/-- A digest fixture whose token is already lower-case. -/
def digestH : List Nat → Str := fun _ => "h".data

/-- C1: an existing module directory with no marker files and no files at
all (the empty asset bundle of spec §8, scenario 5). -/
def fsC1 : FSNode := FSNode.dir (entsOf [("x".data, FSNode.dir .nil)])

/-- C5: a filesystem where `./theme` exists (empty) but `./theme/UI5` does
not. -/
def fsC5 : FSNode := FSNode.dir (entsOf [("theme".data, FSNode.dir .nil)])

/-- C5: the same filesystem after the run — `theme` has been renamed to
`theme-null`. -/
def fsC5after : FSNode := FSNode.dir (entsOf [("theme-null".data, FSNode.dir .nil)])

/-- C2: a document declaring one resource root and carrying no theme-root
marker at all; the theme-root fallback extraction yields the junk substring
`s=`. -/
def docC2 : Str :=
  resourceRootMarker ++ quoteChar :: ("\x7b\"a\":\"./x\"\x7d".data ++ [quoteChar])

/-- C2: a document without any marker whose fallback-extracted resource-root
substring is not valid JSON. -/
def docC2bad : Str := "no markers in this document at all".data

/-- C2: one asset-bundle module `x` holding one file. -/
def fsC2 : FSNode :=
  FSNode.dir (entsOf [("x".data, FSNode.dir (entsOf [("f.txt".data, FSNode.file "A".data)]))])

/-- C2: the filesystem after part one renamed `x` to `x-h`. -/
def fsC2after : FSNode :=
  FSNode.dir (entsOf [("x-h".data, FSNode.dir (entsOf [("f.txt".data, FSNode.file "A".data)]))])

/-- C2: the parsed resource-root declaration of `docC2`. -/
def rootsC2 : Json := Json.obj [("a".data, Json.strv "./x".data)]

/-- C2: the rewritten resource-root map of the `docC2` run. -/
def mapC2 : List (Str × Str) := [("a".data, "./x-h".data)]

/-- C4: the bytes `q='c'` sitting after the resource-root declaration on the
same line, outside both declaration spans. -/
def fragC4 : Str := " q=".data ++ quoteChar :: 'c' :: [quoteChar]

def lineC4a : Str :=
  resourceRootMarker ++ quoteChar :: ("\x7b\x7d".data ++ [quoteChar]) ++ fragC4

def lineC4b : Str := themeRootMarker ++ quoteChar :: ("\x7b\x7d".data ++ [quoteChar])

def lineC4c : Str := "hello".data

/-- C4: a three-line document with empty declarations, a stray quoted
attribute after the resource-root declaration, and a marker-free last
line. -/
def docC4 : Str := lineC4a ++ newline :: (lineC4b ++ newline :: lineC4c)

/-- C4: the document the run produces — the greedy replacement erased the
stray attribute of the first line. -/
def docC4out : Str :=
  (resourceRootMarker ++ quoteChar :: ("\x7b\x7d".data ++ [quoteChar])) ++
    newline :: (lineC4b ++ newline :: lineC4c)

/-- C6: a root holding an allow-listed file `a.txt` and a subdirectory with
a file `b.txt` that is not on the allow-list. -/
def entC6 : FSEntries :=
  entsOf [("a.txt".data, FSNode.file "A".data),
    ("d".data, FSNode.dir (entsOf [("b.txt".data, FSNode.file "B".data)]))]

/-- C7: an application module holding only a non-empty Component-preload. -/
def fsC7 : FSNode :=
  FSNode.dir (entsOf [("app".data, FSNode.dir (entsOf [(preloadName, FSNode.file "P".data)]))])

/-- C7: an application module holding only an *empty* Component-preload. -/
def fsC7e : FSNode :=
  FSNode.dir (entsOf [("app".data, FSNode.dir (entsOf [(preloadName, FSNode.file [])]))])

/-- C7: a manifest declaring one css resource. -/
def manifestC7 : Str :=
  ("\x7b\"sap.ui5\":\x7b\"resources\":\x7b\"css\":[\x7b\"uri\":\"style.css\"\x7d]\x7d\x7d\x7d").data

/-- C7: an application module with preload, manifest and one referenced
stylesheet. -/
def fsC7m : FSNode :=
  FSNode.dir (entsOf [("app".data, FSNode.dir (entsOf
    [(preloadName, FSNode.file "P".data),
     (manifestName, FSNode.file manifestC7),
     ("style.css".data, FSNode.file "S".data)]))])

/-- C10: an application module whose manifest parses to an object without a
top-level `sap.ui5` member. -/
def fsC10 : FSNode :=
  FSNode.dir (entsOf [("app".data, FSNode.dir (entsOf
    [(preloadName, FSNode.file "P".data),
     (manifestName, FSNode.file "\x7b\x7d".data)]))])

/-- C7: the spec-side hash input of the `fsC7m` module — the referenced
stylesheet content followed by the preload content. -/
def bufsC7 : List (List Nat) := [utf8Encode "S".data, utf8Encode "P".data]

/-- C8: a module directory carrying both marker files. -/
def fsC8 : FSNode :=
  FSNode.dir (entsOf [("m".data, FSNode.dir (entsOf
    [(preloadName, FSNode.file "P".data), (libPreloadName, FSNode.file "L".data)]))])

/-! ## Order lemmas for the comparator used by `_createHash` -/

theorem lexLt_nil_right : ∀ (b : List Nat), lexLt b [] = false
  | [] => rfl
  | _ :: _ => rfl

theorem lexLt_asymm : ∀ (a b : List Nat), lexLt a b = true → lexLt b a = false
  | [], [], h => by simp [lexLt] at h
  | [], _ :: _, _ => rfl
  | _ :: _, [], h => by simp [lexLt] at h
  | a :: xs, b :: ys, h => by
    simp only [lexLt] at h ⊢
    rcases Nat.lt_trichotomy a b with hab | hab | hab
    · simp [hab, Nat.lt_asymm hab]
    · subst hab
      simp only [Nat.lt_irrefl, if_false] at h ⊢
      exact lexLt_asymm xs ys h
    · simp [hab, Nat.lt_asymm hab] at h

theorem lexLt_total : ∀ (a b : List Nat), lexLt a b = false → lexLt b a = false → a = b
  | [], [], _, _ => rfl
  | [], _ :: _, h1, _ => by simp [lexLt] at h1
  | _ :: _, [], _, h2 => by simp [lexLt] at h2
  | a :: xs, b :: ys, h1, h2 => by
    simp only [lexLt] at h1 h2
    rcases Nat.lt_trichotomy a b with hab | hab | hab
    · simp [hab] at h1
    · subst hab
      simp only [Nat.lt_irrefl, if_false] at h1 h2
      rw [lexLt_total xs ys h1 h2]
    · simp [hab] at h2

theorem lexLt_trans : ∀ (a b c : List Nat),
    lexLt a b = true → lexLt b c = true → lexLt a c = true
  | [], b, [], _, h2 => by rw [lexLt_nil_right] at h2; exact absurd h2 (by simp)
  | [], _, _ :: _, _, _ => rfl
  | _ :: _, [], _, h1, _ => by rw [lexLt_nil_right] at h1; exact absurd h1 (by simp)
  | _ :: _, _ :: _, [], _, h2 => by rw [lexLt_nil_right] at h2; exact absurd h2 (by simp)
  | a :: xs, b :: ys, c :: zs, h1, h2 => by
    simp only [lexLt] at h1 h2 ⊢
    rcases Nat.lt_trichotomy a b with hab | hab | hab
    · rcases Nat.lt_trichotomy b c with hbc | hbc | hbc
      · simp [Nat.lt_trans hab hbc]
      · subst hbc; simp [hab]
      · simp [hbc, Nat.lt_asymm hbc] at h2
    · subst hab
      simp only [Nat.lt_irrefl, if_false] at h1
      rcases Nat.lt_trichotomy a c with hac | hac | hac
      · simp [hac]
      · subst hac
        simp only [Nat.lt_irrefl, if_false] at h2 ⊢
        exact lexLt_trans xs ys zs h1 h2
      · simp [hac, Nat.lt_asymm hac] at h2
    · simp [hab, Nat.lt_asymm hab] at h1

theorem lexLt_negtrans (a b c : List Nat)
    (h1 : lexLt a b = false) (h2 : lexLt b c = false) : lexLt a c = false := by
  cases hac : lexLt a c with
  | false => rfl
  | true =>
    cases hba : lexLt b a with
    | true =>
      have := lexLt_trans b a c hba hac
      rw [this] at h2
      exact absurd h2 (by simp)
    | false =>
      have hab : a = b := lexLt_total a b h1 hba
      subst hab
      rw [hac] at h2
      exact absurd h2 (by simp)

theorem mem_insertSorted {x z : List Nat} :
    ∀ {l : List (List Nat)}, z ∈ insertSorted x l → z = x ∨ z ∈ l := by
  intro l
  induction l with
  | nil => intro h; simp [insertSorted] at h; exact Or.inl h
  | cons y ys ih =>
    intro h
    by_cases hc : bufLt y x = true
    · simp only [insertSorted, hc, if_true] at h
      rcases List.mem_cons.mp h with h | h
      · exact Or.inr (List.mem_cons.mpr (Or.inl h))
      · rcases ih h with h | h
        · exact Or.inl h
        · exact Or.inr (List.mem_cons.mpr (Or.inr h))
    · simp only [insertSorted, hc, if_false] at h
      rcases List.mem_cons.mp h with h | h
      · exact Or.inl h
      · exact Or.inr h

theorem pairwise_insertSorted {x : List Nat} :
    ∀ {l : List (List Nat)}, l.Pairwise leRel → (insertSorted x l).Pairwise leRel := by
  intro l
  induction l with
  | nil => intro _; exact List.pairwise_singleton leRel x
  | cons y ys ih =>
    intro h
    rcases List.pairwise_cons.mp h with ⟨hy, hys⟩
    cases hc : bufLt y x with
    | true =>
      simp only [insertSorted, hc, if_true]
      refine List.pairwise_cons.mpr ⟨?_, ih hys⟩
      intro z hz
      rcases mem_insertSorted hz with rfl | hz
      · exact lexLt_asymm _ _ hc
      · exact hy z hz
    | false =>
      simp only [insertSorted, hc, if_false]
      refine List.pairwise_cons.mpr ⟨?_, h⟩
      intro z hz
      rcases List.mem_cons.mp hz with rfl | hz
      · exact hc
      · exact lexLt_negtrans _ _ _ (hy z hz) hc

theorem insertSorted_perm (x : List Nat) :
    ∀ (l : List (List Nat)), (insertSorted x l).Perm (x :: l)
  | [] => List.Perm.refl _
  | y :: ys => by
    cases hc : bufLt y x with
    | true =>
      simp only [insertSorted, hc, if_true]
      exact ((insertSorted_perm x ys).cons y).trans (List.Perm.swap x y ys)
    | false => simp [insertSorted, hc]

theorem jsSortBuffers_perm : ∀ (l : List (List Nat)), (jsSortBuffers l).Perm l
  | [] => List.Perm.refl _
  | x :: xs =>
    (insertSorted_perm x (jsSortBuffers xs)).trans ((jsSortBuffers_perm xs).cons x)

theorem jsSortBuffers_pairwise : ∀ (l : List (List Nat)), (jsSortBuffers l).Pairwise leRel
  | [] => List.Pairwise.nil
  | _ :: xs => pairwise_insertSorted (jsSortBuffers_pairwise xs)

theorem sorted_eq_of_perm : ∀ (l1 l2 : List (List Nat)), l1.Perm l2 →
    l1.Pairwise leRel → l2.Pairwise leRel →
    (∀ x ∈ l1, ∀ y ∈ l1, bufKey x = bufKey y → x = y) → l1 = l2
  | [], l2, hp, _, _, _ => (hp.symm.eq_nil).symm
  | x :: xs, [], hp, _, _, _ => absurd hp.eq_nil (by simp)
  | x :: xs, y :: ys, hp, h1, h2, hinj => by
    have hxy : x = y := by
      by_cases hxy : x = y
      · exact hxy
      · have hxmem : x ∈ y :: ys := hp.subset (List.mem_cons_self x xs)
        have hx2 : x ∈ ys := by
          rcases List.mem_cons.mp hxmem with h | h
          · exact absurd h hxy
          · exact h
        have hymem : y ∈ x :: xs := hp.symm.subset (List.mem_cons_self y ys)
        have hy1 : y ∈ xs := by
          rcases List.mem_cons.mp hymem with h | h
          · exact absurd h.symm hxy
          · exact h
        have hr1 : bufLt y x = false := (List.pairwise_cons.mp h1).1 y hy1
        have hr2 : bufLt x y = false := (List.pairwise_cons.mp h2).1 x hx2
        have hkey : bufKey x = bufKey y := lexLt_total _ _ hr2 hr1
        exact absurd (hinj x (List.mem_cons_self x xs) y
          (List.mem_cons.mpr (Or.inr hy1)) hkey) hxy
    subst hxy
    have htl : xs.Perm ys := hp.cons_inv
    have := sorted_eq_of_perm xs ys htl (List.pairwise_cons.mp h1).2
      (List.pairwise_cons.mp h2).2
      (fun a ha b hb hk =>
        hinj a (List.mem_cons.mpr (Or.inr ha)) b (List.mem_cons.mpr (Or.inr hb)) hk)
    rw [this]

theorem jsSort_perm_invariant (l l2 : List (List Nat))
    (hinj : ∀ x ∈ l, ∀ y ∈ l, bufKey x = bufKey y → x = y)
    (hperm : l.Perm l2) : jsSortBuffers l = jsSortBuffers l2 := by
  refine sorted_eq_of_perm _ _ ?_ (jsSortBuffers_pairwise l) (jsSortBuffers_pairwise l2) ?_
  · exact (jsSortBuffers_perm l).trans (hperm.trans (jsSortBuffers_perm l2).symm)
  · intro x hx y hy hk
    exact hinj x ((jsSortBuffers_perm l).subset hx) y ((jsSortBuffers_perm l).subset hy) hk

theorem jsSortBuffers_length : ∀ (l : List (List Nat)), (jsSortBuffers l).length = l.length :=
  fun l => (jsSortBuffers_perm l).length_eq

/-! ## Claims C3 and C9: the Content Hasher -/

/-- Claim C3, counterexample: the token is not a function of the multiset of
buffer contents alone.  The buffers `[0xFF]` and `[0xFE]` both stringify to
the single replacement character U+FFFD under the default sort comparator, so
the stable sort keeps them in insertion order, the two permutations
concatenate to different byte sequences, and a digest distinguishing those
sequences yields different tokens. -/
theorem C3_counterexample :
    ([[255], [254]] : List (List Nat)).Perm [[254], [255]] ∧
    _createHash digestC3 [[255], [254]] ≠ _createHash digestC3 [[254], [255]] := by
  exact ⟨by decide, by decide⟩

/-- Claim C3 (amended): the Content Hasher's token is invariant under
permutation of the input buffers provided that any two buffers of the
collection with equal UTF-8 string decodings are themselves equal (in
particular for pairwise-distinct decodings, e.g. valid UTF-8 buffers that
differ as strings); ties between distinct buffers are kept in insertion order
by the stable sort and can leak the enumeration order into the token. -/
theorem C3_hash_perm_invariant (digest : List Nat → Str) (l l2 : List (List Nat))
    (hinj : ∀ x ∈ l, ∀ y ∈ l, utf8DecodeJS x = utf8DecodeJS y → x = y)
    (hperm : l.Perm l2) :
    _createHash digest l = _createHash digest l2 := by
  unfold _createHash
  rw [jsSort_perm_invariant l l2 hinj hperm]

/-- Witness for `C3_hash_perm_invariant` at the two-buffer collection
`["a", "b"]` and its transposition. -/
theorem C3_hash_perm_invariant_witness :
    _createHash digestW [[97], [98]] = _createHash digestW [[98], [97]] :=
  C3_hash_perm_invariant digestW [[97], [98]] [[98], [97]] (by decide) (by decide)

/-- Claim C9: `_createHash` returns no token exactly on the empty collection
(never a hash of the empty byte string), and on a non-empty collection it
returns the lower-cased digest of the concatenation of the sorted buffers
(truncation to `maxLength` happens inside the external digest primitive that
`digest` stands for). -/
theorem C9_createHash_empty_iff (digest : List Nat → Str) (bufs : List (List Nat)) :
    (_createHash digest bufs = none ↔ bufs = []) ∧
    (bufs ≠ [] →
      _createHash digest bufs = some (jsToLower (digest (concatAll (jsSortBuffers bufs))))) := by
  by_cases hb : bufs = []
  · subst hb
    exact ⟨by simp [_createHash, jsSortBuffers], fun h => absurd rfl h⟩
  · have hlen : (jsSortBuffers bufs).length > 0 := by
      rw [jsSortBuffers_length]
      exact List.length_pos.mpr hb
    constructor
    · simp only [_createHash, hlen, if_true]
      constructor
      · intro h; exact absurd h (by simp)
      · intro h; exact absurd h hb
    · intro _
      simp only [_createHash, hlen, if_true]

/-- Witness for `C9_createHash_empty_iff` at the singleton collection
`["a"]`. -/
theorem C9_createHash_witness :
    _createHash digestW [[97]] =
      some (jsToLower (digestW (concatAll (jsSortBuffers [[97]])))) :=
  (C9_createHash_empty_iff digestW [[97]]).2 (by decide)

/-! ## Claim C8: the Module Classifier -/

/-- Claim C8: classification assigns exactly one kind per resolved module
directory — Application exactly when the component-preload marker exists
(winning when both markers exist), Library exactly when only the
library-preload marker exists, AssetBundle exactly when neither does; the
three characterizations make the kinds mutually exclusive and exhaustive. -/
theorem C8_classifier_exact (fs : FSNode) (resolved : FsPath) :
    (fsExists fs (resolved ++ [preloadName]) = true ∧
        fsExists fs (resolved ++ [libPreloadName]) = true →
      classifyModule fs resolved = .application) ∧
    (classifyModule fs resolved = .application ↔
      fsExists fs (resolved ++ [preloadName]) = true) ∧
    (classifyModule fs resolved = .library ↔
      (fsExists fs (resolved ++ [preloadName]) = false ∧
        fsExists fs (resolved ++ [libPreloadName]) = true)) ∧
    (classifyModule fs resolved = .assetBundle ↔
      (fsExists fs (resolved ++ [preloadName]) = false ∧
        fsExists fs (resolved ++ [libPreloadName]) = false)) := by
  cases h1 : fsExists fs (resolved ++ [preloadName]) <;>
    cases h2 : fsExists fs (resolved ++ [libPreloadName]) <;>
      simp [classifyModule, h1, h2]

/-- Witness for `C8_classifier_exact`: a directory carrying both marker
files classifies as an application. -/
theorem C8_classifier_exact_witness :
    classifyModule fsC8 ["m".data] = ModuleKind.application :=
  (C8_classifier_exact fsC8 ["m".data]).1 ⟨by decide, by decide⟩

/-! ## Claim C10: a manifest without a `sap.ui5` object -/

/-- Claim C10: with the preload present, a manifest file that parses to a
JSON object lacking a top-level `sap.ui5` member makes the application hash
strategy throw a TypeError (`undefined.resources`), rather than treating the
manifest as declaring no extra resources; hence a `sap.ui5` object is a
precondition for the run to succeed on such a module. -/
theorem C10_missing_sapui5_throws (fs : FSNode) (modPath : FsPath)
    (digest : List Nat → Str) (b m : Str) (kvs : List (Str × Json))
    (hpre : fsLookup fs (modPath ++ [preloadName]) = some (.file b))
    (hman : fsLookup fs (modPath ++ [manifestName]) = some (.file m))
    (hparse : jsonParse m = some (.obj kvs))
    (hmiss : assocLookup kvs sapUi5Key = none) :
    _getUi5AppHash fs modPath digest = .error .typeError := by
  unfold _getUi5AppHash
  simp only [hpre, hman, hparse]
  unfold appHashCore
  simp [jsMember, jsGetKey, hmiss]

/-- Witness for `C10_missing_sapui5_throws` at a module with preload `P` and
manifest `{}`. -/
theorem C10_missing_sapui5_throws_witness :
    _getUi5AppHash fsC10 ["app".data] digestH = Except.error BustError.typeError :=
  C10_missing_sapui5_throws fsC10 ["app".data] digestH "P".data "\x7b\x7d".data []
    rfl rfl rfl rfl

/-! ## Claim C1: a resource root whose strategy yields no token -/

/-- Claim C1 (code bug), evaluated at the failing input: for the existing
empty module directory `x` the hash strategy produces no token; the rename
target is guarded (`sNewHash ? … : sResolvedModulePath`), so the filesystem
comes back unchanged, but the unguarded declaration-path concatenation
records `./x-null` — the module path is *not* left unchanged in the output
declaration map. -/
theorem C1_null_hash_eval :
    processResourceRoot fsC1 [] digestW "./x".data =
      Except.ok ("./x-null".data, fsC1) := rfl

/-! ## Claim C5: a theme root whose resolved directory does not exist -/

/-- Claim C5 (code bug), evaluated at the failing inputs: with `./theme/UI5`
absent no token is produced, but (a) when `./theme` exists the run renames
it to `theme-null` on disk and records `./theme-null/UI5` in the
declaration — the path is not passed through unchanged; and (b) when
`./theme` is absent as well, `renameSync` throws and the run fails. -/
theorem C5_missing_theme_root_eval :
    (processThemeRoot fsC5 [] digestW "./theme/UI5".data =
      Except.ok ("./theme-null/UI5".data, fsC5after)) ∧
    (processThemeRoot (FSNode.dir .nil) [] digestW "./theme/UI5".data =
      Except.error (BustError.fsError, FSNode.dir .nil)) :=
  ⟨rfl, rfl⟩

/-! ## Claim C2: malformed declarations and the moment of failure -/

/-- Claim C2 counterexample: `docC2` has a well-formed resource-root
declaration for the asset module `x` but no theme-root marker; the run
aborts with a malformed-declaration error (the fallback-extracted theme
substring `s=` is not JSON), yet at that moment `x` has already been renamed
to `x-h` — the failure is *not* before any filesystem mutation. -/
theorem C2_counterexample :
    ui5Bust docC2 fsC2 [] digestH =
      Except.error (BustError.malformedDeclaration, fsC2after) ∧
    fsExists fsC2 ["x".data] = true ∧ fsExists fsC2after ["x".data] = false :=
  ⟨rfl, rfl, rfl⟩

/-- Claim C2 (amended): a resource-root declaration whose extracted substring
fails to parse aborts the run with the filesystem untouched, but a
theme-root declaration whose substring fails to parse aborts only after part
one — the filesystem is in the state the resource-root renames produced
(no *theme* rename has happened at that moment). -/
theorem C2_declaration_failure_order (doc : Str) (fs : FSNode) (base : FsPath)
    (digest : List Nat → Str) :
    (jsonParse (extractDecl doc resourceRootMarker) = none →
      ui5Bust doc fs base digest = .error (.malformedDeclaration, fs)) ∧
    (∀ roots m fs1,
      jsonParse (extractDecl doc resourceRootMarker) = some roots →
      bustResourceRoots fs base digest roots = .ok (m, fs1) →
      jsonParse (extractDecl doc themeRootMarker) = none →
      ui5Bust doc fs base digest = .error (.malformedDeclaration, fs1)) := by
  constructor
  · intro h
    unfold ui5Bust
    rw [h]
  · intro roots m fs1 h1 h2 h3
    unfold ui5Bust
    simp only [h1, h2, h3]

/-- Witness for `C2_declaration_failure_order`: both implications applied at
concrete runs (a marker-free document; the `docC2` run whose part one
renamed `x` to `x-h`). -/
theorem C2_declaration_failure_order_witness :
    ui5Bust docC2bad fsC2 [] digestH =
      Except.error (BustError.malformedDeclaration, fsC2) ∧
    ui5Bust docC2 fsC2 [] digestH =
      Except.error (BustError.malformedDeclaration, fsC2after) :=
  ⟨(C2_declaration_failure_order docC2bad fsC2 [] digestH).1 rfl,
   (C2_declaration_failure_order docC2 fsC2 [] digestH).2 rootsC2 mapC2 fsC2after
     rfl rfl rfl⟩

/-! ## Claim C6: the File-Tree Reader's allow-list -/

theorem readAllEntries_nil_whitelist :
    ∀ es : FSEntries, readAllEntries [] es = collectAllFiles es := by
  intro es
  induction es using collectAllFiles.induct
  · rfl
  · simp [readAllEntries, collectAllFiles, *]
  · simp [readAllEntries, collectAllFiles, *]

/-- Claim C6 counterexample: with allow-list `[a.txt]`, the reader also
returns the content `B` of the file `b.txt` found at depth two, although
`b.txt` is not on the allow-list — the filter does not apply at every
depth. -/
theorem C6_counterexample :
    readAllEntries ["a.txt".data] entC6 = ["A".data, "B".data] ∧
    "b.txt".data ∉ (["a.txt".data] : List Str) :=
  ⟨rfl, by decide⟩

/-- Claim C6 (amended): with a non-empty allow-list the File-Tree Reader
filters only the root directory's own files by base name (the recursion
passes the default empty allow-list); every subdirectory tree is included
wholesale, and directories are never filtered out of the traversal. -/
theorem C6_reader_top_level_filter (w : List Str) (es : FSEntries)
    (hw : w ≠ []) : readAllEntries w es = topFilteredFiles w es := by
  induction es using collectAllFiles.induct
  · rfl
  · next name c rest ih =>
    simp [readAllEntries, topFilteredFiles, List.length_eq_zero, hw, ih]
  · next name es2 rest ih1 ih2 =>
    simp [readAllEntries, topFilteredFiles, readAllEntries_nil_whitelist, ih2]

/-- Witness for `C6_reader_top_level_filter` at the `entC6` tree. -/
theorem C6_reader_top_level_filter_witness :
    readAllEntries ["a.txt".data] entC6 = topFilteredFiles ["a.txt".data] entC6 :=
  C6_reader_top_level_filter ["a.txt".data] entC6 (by decide)

/-! ## Claim C7: the application hash input -/

/-- Claim C7 counterexample: for an application module whose only file is an
*empty* `Component-preload.js` (B = `""`), the strategy feeds no buffer at
all to the Content Hasher (the JS truthiness test drops the empty preload
content) and yields no token, whereas the claim demands the token
`hash(sort([B]))`, which is a present token. -/
theorem C7_counterexample :
    _getUi5AppHash fsC7e ["app".data] digestH = Except.ok none ∧
    _createHash digestH [utf8Encode []] = some "h".data ∧
    (Except.ok (_createHash digestH [utf8Encode []]) :
        Except BustError (Option Str)) ≠ Except.ok none := by
  refine ⟨rfl, rfl, ?_⟩
  intro h
  exact Option.noConfusion (Except.ok.inj h)

theorem assocLookup_mem_of_nodup {α : Type} :
    ∀ (cats : List (Str × α)), (cats.map Prod.fst).Nodup →
      ∀ kv ∈ cats, assocLookup cats kv.1 = some kv.2 := by
  intro cats
  induction cats with
  | nil => intro _ kv h; exact absurd h (List.not_mem_nil kv)
  | cons hd tl ih =>
    intro hnd kv hmem
    obtain ⟨k, v⟩ := hd
    rcases List.mem_cons.mp hmem with rfl | hmem2
    · simp [assocLookup]
    · have hk : k ∉ tl.map Prod.fst := by
        rw [List.map_cons] at hnd
        exact (List.nodup_cons.mp hnd).1
      have hne : ¬ k = kv.1 := by
        intro he
        exact hk (he ▸ List.mem_map_of_mem Prod.fst hmem2)
      have htl : (tl.map Prod.fst).Nodup := by
        rw [List.map_cons] at hnd
        exact (List.nodup_cons.mp hnd).2
      simpa [assocLookup, hne] using ih htl kv hmem2

theorem readResourceItem_of_spec (fs : FSNode) (mp : FsPath) (item : Json) (c : Str)
    (h : specItemContent fs mp item = some c) :
    readResourceItem fs mp item = .ok c := by
  cases item with
  | obj kvs =>
    simp only [specItemContent] at h
    unfold readResourceItem
    simp only [jsMember, jsGetKey]
    cases hu : assocLookup kvs uriKey with
    | none => simp [hu] at h
    | some uv =>
      simp only [hu] at h ⊢
      cases uv with
      | strv u =>
        cases hf : fsLookup fs (resolveSegs mp u) with
        | none => simp [hf] at h
        | some n =>
          cases n with
          | file c2 =>
            simp only [hf] at h ⊢
            simp at h
            subst h
            rfl
          | dir es => simp [hf] at h
      | null => simp at h
      | bool b => simp at h
      | num r => simp at h
      | arr xs => simp at h
      | obj kvs2 => simp at h
  | null => exact absurd h (by simp [specItemContent])
  | bool b => exact absurd h (by simp [specItemContent])
  | num r => exact absurd h (by simp [specItemContent])
  | strv s0 => exact absurd h (by simp [specItemContent])
  | arr xs => exact absurd h (by simp [specItemContent])

theorem mapExceptStr_of_spec (fs : FSNode) (mp : FsPath) :
    ∀ (items : List Json) (cs : List Str),
      mapOptionStr (specItemContent fs mp) items = some cs →
      mapExceptStr (readResourceItem fs mp) items = .ok cs := by
  intro items
  induction items with
  | nil => intro cs h; simp [mapOptionStr] at h; subst h; rfl
  | cons x rest ih =>
    intro cs h
    unfold mapOptionStr at h
    cases hx : specItemContent fs mp x with
    | none => rw [hx] at h; exact absurd h (by simp)
    | some c =>
      rw [hx] at h
      cases hr : mapOptionStr (specItemContent fs mp) rest with
      | none => rw [hr] at h; exact absurd h (by simp)
      | some cs2 =>
        rw [hr] at h
        simp at h
        subst h
        unfold mapExceptStr
        rw [readResourceItem_of_spec fs mp x c hx, ih cs2 hr]

theorem reduceResourceKeys_of_spec (fs : FSNode) (mp : FsPath) (cats : List (Str × Json)) :
    ∀ (sub : List (Str × Json)) (acc : List Str) (contents : List (List Str)),
      (∀ kv ∈ sub, assocLookup cats kv.1 = some kv.2) →
      mapOptionList (fun cat => specCatContents fs mp cat.2) sub = some contents →
      reduceResourceKeys fs mp (.obj cats) (sub.map Prod.fst) acc =
        .ok (acc ++ concatAll contents) := by
  intro sub
  induction sub with
  | nil =>
    intro acc contents _ h
    simp [mapOptionList] at h
    subst h
    simp [reduceResourceKeys, concatAll]
  | cons hd tl ih =>
    intro acc contents hlook h
    obtain ⟨k, v⟩ := hd
    simp only [mapOptionList] at h
    cases hc : specCatContents fs mp v with
    | none => simp [hc] at h
    | some c1 =>
      simp only [hc] at h
      cases hr : mapOptionList (fun cat => specCatContents fs mp cat.2) tl with
      | none => simp [hr] at h
      | some cs =>
        simp only [hr] at h
        simp at h
        subst h
        cases v with
        | arr items =>
          simp only [specCatContents] at hc
          have hk : assocLookup cats k = some (.arr items) :=
            hlook (k, .arr items) (List.mem_cons_self _ _)
          simp only [List.map_cons, reduceResourceKeys, jsGetKey, hk,
            mapExceptStr_of_spec fs mp items c1 hc]
          rw [ih (acc ++ c1) cs (fun kv hm => hlook kv (List.mem_cons.mpr (Or.inr hm))) hr]
          simp [concatAll, List.append_assoc]
        | obj kvs => exact absurd hc (by simp [specCatContents])
        | null => exact absurd hc (by simp [specCatContents])
        | bool b => exact absurd hc (by simp [specCatContents])
        | num r => exact absurd hc (by simp [specCatContents])
        | strv s0 => exact absurd hc (by simp [specCatContents])

/-- Claim C7 (amended): whenever the spec-side hash-input collection is
defined — preload present, manifest (if any) well-formed with a `sap.ui5`
object whose optional `resources` object maps distinct categories to arrays
of readable `{uri}` entries — the application strategy's result is exactly
the Content Hasher applied to that collection: all manifest-referenced file
contents together with the preload content when the latter is non-empty (an
empty preload contributes no buffer). -/
theorem C7_app_hash_input (fs : FSNode) (modPath : FsPath) (digest : List Nat → Str)
    (bufs : List (List Nat))
    (h : specAppHashInput fs modPath = some bufs) :
    _getUi5AppHash fs modPath digest = .ok (_createHash digest bufs) := by
  unfold specAppHashInput at h
  cases hpre : fsLookup fs (modPath ++ [preloadName]) with
  | none => simp [hpre] at h
  | some n =>
    cases n with
    | dir es => simp [hpre] at h
    | file b =>
      simp only [hpre] at h
      unfold _getUi5AppHash
      rw [hpre]
      cases hman : fsLookup fs (modPath ++ [manifestName]) with
      | none =>
        simp only [hman, Option.map] at h
        have hb : bufs = (([] : List Str) ++
            (if b ≠ [] then [b] else [])).map utf8Encode := (Option.some.inj h).symm
        subst hb
        rfl
      | some mn =>
        cases mn with
        | dir es2 => simp [hman] at h
        | file c =>
          simp only [hman] at h ⊢
          cases hparse : jsonParse c with
          | none => simp [hparse] at h
          | some j =>
            simp only [hparse] at h ⊢
            cases j with
            | null => simp at h
            | bool b2 => simp at h
            | num r => simp at h
            | strv s0 => simp at h
            | arr xs => simp at h
            | obj mkvs =>
              cases hs5 : assocLookup mkvs sapUi5Key with
              | none => simp [hs5] at h
              | some s5 =>
                simp only [hs5] at h
                cases s5 with
                | null => simp at h
                | bool b2 => simp at h
                | num r => simp at h
                | strv s0 => simp at h
                | arr xs => simp at h
                | obj s5kvs =>
                  unfold appHashCore
                  simp only [jsMember, jsGetKey, hs5]
                  cases hres : assocLookup s5kvs resourcesKey with
                  | none =>
                    simp only [hres, Option.map] at h
                    have hb : bufs = (([] : List Str) ++
                        (if b ≠ [] then [b] else [])).map utf8Encode :=
                      (Option.some.inj h).symm
                    subst hb
                    simp [hres, jsTruthy, reduceResourceKeys]
                  | some r =>
                    simp only [hres] at h
                    cases r with
                    | null => simp [specResourceContents] at h
                    | bool b2 => simp [specResourceContents] at h
                    | num r2 => simp [specResourceContents] at h
                    | strv s0 => simp [specResourceContents] at h
                    | arr xs => simp [specResourceContents] at h
                    | obj cats =>
                      simp only [specResourceContents] at h
                      by_cases hnd : (cats.map Prod.fst).Nodup
                      · rw [if_pos hnd] at h
                        cases hml : mapOptionList
                            (fun cat => specCatContents fs modPath cat.2) cats with
                        | none => simp [hml] at h
                        | some contents =>
                          simp only [hml, Option.map] at h
                          have hb : bufs = ((concatAll contents ++
                              (if b ≠ [] then [b] else [])).map utf8Encode) :=
                            (Option.some.inj h).symm
                          subst hb
                          simp only [hres, jsTruthy, jsObjectKeysE, Option.getD, if_true]
                          rw [reduceResourceKeys_of_spec fs modPath cats cats [] contents
                            (assocLookup_mem_of_nodup cats hnd) hml]
                          simp
                      · rw [if_neg hnd] at h
                        exact absurd h (by simp)

/-- Witness for `C7_app_hash_input` at a module with preload `P`, a manifest
declaring one css resource `style.css`, and that stylesheet's content `S`:
the token is the hash of exactly `[S, P]`. -/
theorem C7_app_hash_input_witness :
    specAppHashInput fsC7m ["app".data] = some bufsC7 ∧
    _getUi5AppHash fsC7m ["app".data] digestH = .ok (_createHash digestH bufsC7) :=
  ⟨rfl, C7_app_hash_input fsC7m ["app".data] digestH bufsC7 rfl⟩

/-! ## Claim C4: what the document patcher leaves untouched -/

theorem splitOnChar_ne_nil (sep : Char) : ∀ s : Str, splitOnChar sep s ≠ []
  | [] => by simp [splitOnChar]
  | c :: rest => by
    by_cases hc : c = sep
    · simp [splitOnChar, hc]
    · simp only [splitOnChar, if_neg hc]
      cases hs : splitOnChar sep rest with
      | nil => exact absurd hs (splitOnChar_ne_nil sep rest)
      | cons l ls => simp

theorem not_mem_splitOnChar (sep : Char) :
    ∀ (s : Str) (l : Str), l ∈ splitOnChar sep s → sep ∉ l
  | [], l, h => by
    simp [splitOnChar] at h
    subst h
    simp
  | c :: rest, l, h => by
    by_cases hc : c = sep
    · simp only [splitOnChar, if_pos hc] at h
      rcases List.mem_cons.mp h with rfl | hmem
      · simp
      · exact not_mem_splitOnChar sep rest l hmem
    · simp only [splitOnChar, if_neg hc] at h
      cases hs : splitOnChar sep rest with
      | nil => exact absurd hs (splitOnChar_ne_nil sep rest)
      | cons l0 ls =>
        rw [hs] at h
        rcases List.mem_cons.mp h with rfl | hmem
        · intro hin
          rcases List.mem_cons.mp hin with rfl | hin2
          · exact hc rfl
          · exact not_mem_splitOnChar sep rest l0 (hs ▸ List.mem_cons_self _ _) hin2
        · exact not_mem_splitOnChar sep rest l (hs ▸ List.mem_cons.mpr (Or.inr hmem))

theorem splitOnChar_cons_self (sep : Char) (s : Str) :
    splitOnChar sep (sep :: s) = [] :: splitOnChar sep s := by
  simp [splitOnChar]

theorem splitOnChar_append (sep : Char) :
    ∀ (a b : Str), sep ∉ a →
      splitOnChar sep (a ++ b) =
        (a ++ (splitOnChar sep b).headD []) :: (splitOnChar sep b).tail
  | [], b, _ => by
    cases hs : splitOnChar sep b with
    | nil => exact absurd hs (splitOnChar_ne_nil sep b)
    | cons l ls => simp [hs]
  | c :: a2, b, ha => by
    have hc : ¬ c = sep := fun he => ha (he ▸ List.mem_cons_self c a2)
    have ha2 : sep ∉ a2 := fun hm => ha (List.mem_cons.mpr (Or.inr hm))
    show splitOnChar sep (c :: (a2 ++ b)) = _
    simp only [splitOnChar, if_neg hc]
    rw [splitOnChar_append sep a2 b ha2]
    simp

theorem splitLines_joinLines :
    ∀ ls : List Str, ls ≠ [] → (∀ l ∈ ls, newline ∉ l) →
      splitLines (joinLines ls) = ls
  | [], h, _ => absurd rfl h
  | [l], _, h2 => by
    show splitLines (joinLines [l]) = [l]
    unfold joinLines splitLines
    have hl : newline ∉ l := h2 l (List.mem_cons_self _ _)
    have := splitOnChar_append newline l [] hl
    rw [List.append_nil] at this
    rw [this]
    simp [splitOnChar]
  | l :: l2 :: rest, _, h2 => by
    show splitLines (l ++ newline :: joinLines (l2 :: rest)) = _
    unfold splitLines
    rw [splitOnChar_append newline l (newline :: joinLines (l2 :: rest))
      (h2 l (List.mem_cons_self _ _))]
    rw [splitOnChar_cons_self]
    simp only [List.headD_cons, List.tail_cons, List.append_nil]
    have htl := splitLines_joinLines (l2 :: rest) (by simp)
      (fun x hx => h2 x (List.mem_cons.mpr (Or.inr hx)))
    unfold splitLines at htl
    rw [htl]

theorem mem_concatAll {a : α} : ∀ {ls : List (List α)}, a ∈ concatAll ls → ∃ l ∈ ls, a ∈ l := by
  intro ls
  induction ls with
  | nil => intro h; exact absurd h (List.not_mem_nil a)
  | cons x rest ih =>
    intro h
    rcases List.mem_append.mp h with h | h
    · exact ⟨x, List.mem_cons_self _ _, h⟩
    · obtain ⟨l, hl, hal⟩ := ih h
      exact ⟨l, List.mem_cons.mpr (Or.inr hl), hal⟩

theorem hexDigitChar_ne_newline (n : Nat) (hn : n < 16) : hexDigitChar n ≠ newline := by
  interval_cases n <;> decide

theorem not_mem_jsonEscapeChar_newline (c : Char) : newline ∉ jsonEscapeChar c := by
  unfold jsonEscapeChar
  by_cases h1 : c = '"'
  · rw [if_pos h1]; decide
  rw [if_neg h1]
  by_cases h2 : c = '\\'
  · rw [if_pos h2]; decide
  rw [if_neg h2]
  by_cases h3 : c = newline
  · rw [if_pos h3]; decide
  rw [if_neg h3]
  by_cases h4 : c = Char.ofNat 13
  · rw [if_pos h4]; decide
  rw [if_neg h4]
  by_cases h5 : c = Char.ofNat 9
  · rw [if_pos h5]; decide
  rw [if_neg h5]
  by_cases h6 : c = Char.ofNat 8
  · rw [if_pos h6]; decide
  rw [if_neg h6]
  by_cases h7 : c = Char.ofNat 12
  · rw [if_pos h7]; decide
  rw [if_neg h7]
  by_cases h8 : c.toNat < 32
  · rw [if_pos h8]
    intro hm
    have hd1 : c.toNat / 16 < 16 := by omega
    have hd2 : c.toNat % 16 < 16 := by omega
    simp only [List.mem_cons, List.not_mem_nil, or_false] at hm
    rcases hm with h | h | h | h | h | h
    · exact absurd h (by decide)
    · exact absurd h (by decide)
    · exact absurd h (by decide)
    · exact absurd h (by decide)
    · exact hexDigitChar_ne_newline _ hd1 h.symm
    · exact hexDigitChar_ne_newline _ hd2 h.symm
  · rw [if_neg h8]
    intro hm
    exact h3 (List.mem_singleton.mp hm).symm

theorem not_mem_jsonEscape_newline (s0 : Str) : newline ∉ jsonEscape s0 := by
  intro h
  obtain ⟨l, hl, hal⟩ := mem_concatAll h
  obtain ⟨c, _, rfl⟩ := List.mem_map.mp hl
  exact not_mem_jsonEscapeChar_newline c hal

theorem not_mem_joinCommas (a : Char) (hne : ¬ a = ',') :
    ∀ ps : List Str, (∀ p ∈ ps, a ∉ p) → a ∉ joinCommas ps
  | [], _ => by simp [joinCommas]
  | [x], h => by
    simpa [joinCommas] using h x (List.mem_cons_self _ _)
  | x :: y :: rest, h => by
    unfold joinCommas
    intro hm
    rcases List.mem_append.mp hm with hm | hm
    · exact h x (List.mem_cons_self _ _) hm
    · rcases List.mem_cons.mp hm with rfl | hm
      · exact hne rfl
      · exact not_mem_joinCommas a hne (y :: rest)
          (fun p hp => h p (List.mem_cons.mpr (Or.inr hp))) hm

theorem stringifyStrMap_no_newline (m : List (Str × Str)) :
    newline ∉ stringifyStrMap m := by
  unfold stringifyStrMap
  intro hm
  rcases List.mem_cons.mp hm with hm | hm
  · exact absurd hm (by decide)
  · rcases List.mem_append.mp hm with hm | hm
    · refine not_mem_joinCommas newline (by decide) _ ?_ hm
      intro p hp
      obtain ⟨kv, _, rfl⟩ := List.mem_map.mp hp
      intro hin
      rcases List.mem_append.mp hin with hin | hin
      · unfold quoteStr at hin
        rcases List.mem_cons.mp hin with h0 | hin
        · exact absurd h0 (by decide)
        · rcases List.mem_append.mp hin with hin | hin
          · exact not_mem_jsonEscape_newline kv.1 hin
          · exact absurd (List.mem_singleton.mp hin) (by decide)
      · rcases List.mem_cons.mp hin with h0 | hin
        · exact absurd h0 (by decide)
        · unfold quoteStr at hin
          rcases List.mem_cons.mp hin with h0 | hin
          · exact absurd h0 (by decide)
          · rcases List.mem_append.mp hin with hin | hin
            · exact not_mem_jsonEscape_newline kv.2 hin
            · exact absurd (List.mem_singleton.mp hin) (by decide)
    · exact absurd (List.mem_singleton.mp hm) (by decide)

theorem lineReplace_no_newline (marker json line : Str)
    (hm : newline ∉ marker) (hj : newline ∉ json) (hl : newline ∉ line) :
    newline ∉ lineReplace marker json line := by
  unfold lineReplace
  split
  · exact hl
  · split
    · split
      · intro hin
        simp only [List.mem_append, List.mem_cons] at hin
        rcases hin with (h | h) | h | h | h | h
        · exact hl (List.take_subset _ _ h)
        · exact hm h
        · exact absurd h (by decide)
        · exact hj h
        · exact absurd h (by decide)
        · exact hl (List.drop_subset _ _ h)
      · exact hl
    · exact hl

theorem lineReplace_of_not_contains (marker json line : Str)
    (h : containsSub line (marker ++ [quoteChar]) = false) :
    lineReplace marker json line = line := by
  unfold containsSub at h
  unfold lineReplace
  cases hf : findSubIdx line (marker ++ [quoteChar]) with
  | none => rfl
  | some i => rw [hf] at h; simp at h

theorem splitLines_jsGlobalReplace (doc marker json : Str)
    (hm : newline ∉ marker) (hj : newline ∉ json) :
    splitLines (jsGlobalReplace doc marker json) =
      (splitLines doc).map (lineReplace marker json) := by
  unfold jsGlobalReplace
  apply splitLines_joinLines
  · intro hmap
    exact splitOnChar_ne_nil newline doc (List.map_eq_nil_iff.mp hmap)
  · intro l hl
    obtain ⟨l0, hl0, rfl⟩ := List.mem_map.mp hl
    exact lineReplace_no_newline marker json l0 hm hj
      (not_mem_splitOnChar newline doc l0 hl0)

theorem getD_map_of_lt (f : Str → Str) :
    ∀ (l : List Str) (i : Nat), i < l.length → (l.map f).getD i [] = f (l.getD i [])
  | [], i, hi => absurd hi (by simp)
  | x :: rest, 0, _ => rfl
  | x :: rest, i + 1, hi => by
    simp only [List.map_cons, List.getD_cons_succ]
    exact getD_map_of_lt f rest i (by simpa using hi)

/-- Claim C4 (amended): rewriting is line-based; a line containing neither
marker-plus-quote pattern is byte-identical in the output document (and the
line count is preserved).  Within a line that does match, the replaced span
is the *greedy* one, from the marker to the last single quote on that line —
bytes between the declaration's closing quote and the line's last quote are
replaced along with the JSON literal, as the counterexample shows. -/
theorem C4_patcher_line_frame (doc : Str) (fs : FSNode) (base : FsPath)
    (digest : List Nat → Str) (out : Str) (fs2 : FSNode)
    (h : ui5Bust doc fs base digest = .ok (out, fs2)) :
    (splitLines out).length = (splitLines doc).length ∧
    ∀ i, i < (splitLines doc).length →
      containsSub ((splitLines doc).getD i []) (resourceRootMarker ++ [quoteChar]) = false →
      containsSub ((splitLines doc).getD i []) (themeRootMarker ++ [quoteChar]) = false →
      (splitLines out).getD i [] = (splitLines doc).getD i [] := by
  unfold ui5Bust at h
  cases hp1 : jsonParse (extractDecl doc resourceRootMarker) with
  | none => simp [hp1] at h
  | some roots =>
    simp only [hp1] at h
    cases hb1 : bustResourceRoots fs base digest roots with
    | error e => simp [hb1] at h
    | ok pr1 =>
      obtain ⟨m1, fs1⟩ := pr1
      simp only [hb1] at h
      cases hp2 : jsonParse (extractDecl doc themeRootMarker) with
      | none => simp [hp2] at h
      | some themes =>
        simp only [hp2] at h
        cases hb2 : bustThemeRoots fs1 base digest themes with
        | error e => simp [hb2] at h
        | ok pr2 =>
          obtain ⟨m2, fs2x⟩ := pr2
          simp only [hb2] at h
          have hout : jsGlobalReplace
              (jsGlobalReplace doc resourceRootMarker (stringifyStrMap m1))
              themeRootMarker (stringifyStrMap m2) = out :=
            congrArg Prod.fst (Except.ok.inj h)
          rw [← hout]
          rw [splitLines_jsGlobalReplace _ _ _ (by decide) (stringifyStrMap_no_newline m2),
            splitLines_jsGlobalReplace _ _ _ (by decide) (stringifyStrMap_no_newline m1)]
          constructor
          · simp
          · intro i hi hc1 hc2
            rw [getD_map_of_lt _ _ _ (by simpa using hi), getD_map_of_lt _ _ _ hi]
            rw [lineReplace_of_not_contains _ _ _ hc1, lineReplace_of_not_contains _ _ _ hc2]

/-- Claim C4 counterexample: in `docC4` the bytes ` q='c'` sit on the first
line after the resource-root declaration's closing quote, outside both
declaration spans; the run succeeds, yet those bytes are gone from the
output — the greedy `(.*)` replacement extends to the last quote of the
line. -/
theorem C4_counterexample :
    ui5Bust docC4 (FSNode.dir .nil) [] digestH =
      Except.ok (docC4out, FSNode.dir .nil) ∧
    containsSub docC4 fragC4 = true ∧ containsSub docC4out fragC4 = false :=
  ⟨rfl, rfl, rfl⟩

/-- Witness for `C4_patcher_line_frame` at the `docC4` run: the line count is
preserved and the marker-free third line `hello` is byte-identical. -/
theorem C4_patcher_line_frame_witness :
    (splitLines docC4out).length = (splitLines docC4).length ∧
    (splitLines docC4out).getD 2 [] = (splitLines docC4).getD 2 [] := by
  have h := C4_patcher_line_frame docC4 (FSNode.dir .nil) [] digestH docC4out
    (FSNode.dir .nil) rfl
  exact ⟨h.1, h.2 2 (by decide) (by decide) (by decide)⟩

end UI5

